import Mathlib

/-
Verification of the middl pipeline core (src/middl/core) against its
specification. The Python code is shallowly embedded:

* Python `set[str]` objects are modelled as `Finset String`; where reference
  semantics (in-place mutation, copying) is what a claim is about, sets are
  additionally modelled as cells of an explicit heap (see the `Heap` section).
* Exceptions used as control flow (`SkipStep`, `AbortPipeline`) are modelled
  as an `Option Signal` component threaded through every processing step;
  `ValidationError` is modelled as `Option`/`Bool` failure results.
* The mutable `state` and per-batch `data` mappings of `Pipeline.run` are
  modelled as association lists `List (String × Value)` with Python-dict
  update semantics (`setKey` keeps the position of an existing key).
* Calls that `Pipeline.run` makes (lifecycle hooks, pulling a record from the
  loader) are recorded in an event trace so that claims about call counts and
  call order are statements about the embedding's output.
-/

set_option autoImplicit false

namespace Middl

/-! ## Field contracts and `Middleware._validate` (middleware.py) -/

/-- Field contract of a middleware: the five field-name sets initialized by
`Middleware.__init__` (middleware.py, lines 88-104). Python sets of strings
are modelled as `Finset String`. -/
structure Contract where
  requires_state_fields : Finset String
  requires_data_fields_pre : Finset String
  provides_data_fields_pre : Finset String
  requires_data_fields_post : Finset String
  provides_data_fields_post : Finset String
deriving DecidableEq

/-- Embedding of `Middleware._validate` (middleware.py, lines 167-207).
The state-fields check comes first and is performed for both values of `pre`;
on success the (mutable, in Python) `data_fields` set has the corresponding
provides-set unioned in, and the updated set is returned. A raised
`ValidationError` is modelled as `none`; on failure `data_fields` is not
updated, since the Python code raises before calling `update`. -/
def mwValidate (m : Contract) (state_fields data_fields : Finset String)
    (pre : Bool) : Option (Finset String) :=
  if m.requires_state_fields ⊆ state_fields then
    if pre then
      if m.requires_data_fields_pre ⊆ data_fields then
        some (data_fields ∪ m.provides_data_fields_pre)
      else none
    else
      if m.requires_data_fields_post ⊆ data_fields then
        some (data_fields ∪ m.provides_data_fields_post)
      else none
  else none

/-! ## `Pipeline.validate` (pipeline.py, lines 53-126) -/

/-- The seeding of the working state-field set done by `Pipeline.validate`
(pipeline.py, lines 103-105): `state_fields.add(self.step_name)` and, for a
sized loader, `state_fields.add(f"num_[step_name]s")`. -/
def seedStateFields (step_name : String) (state_fields : Finset String)
    (sized : Bool) : Finset String :=
  let sf := insert step_name state_fields
  if sized then insert ("num_" ++ step_name ++ "s") sf else sf

/-- The forward pass of `Pipeline.validate` (pipeline.py, lines 107-115):
each middleware's `_validate` is called with `pre=True`, threading the working
data-field set; the first failure aborts the pass. The working state-field set
is not changed by `Middleware._validate`, so it is a fixed parameter here. -/
def forwardPass (sf : Finset String) : List Contract → Finset String →
    Option (Finset String)
  | [], df => some df
  | m :: ms, df =>
    match mwValidate m sf df true with
    | none => none
    | some df1 => forwardPass sf ms df1

/-- The reverse pass of `Pipeline.validate` (pipeline.py, lines 117-126):
the middleware list is iterated in reverse (the caller passes the reversed
list), calling `_validate` with `pre=False`. -/
def backwardPass (sf : Finset String) : List Contract → Finset String →
    Option (Finset String)
  | [], df => some df
  | m :: ms, df =>
    match mwValidate m sf df false with
    | none => none
    | some df1 => backwardPass sf ms df1

/-- Embedding of `Pipeline.validate` (pipeline.py, lines 53-126) for a
pipeline of plain middlewares: copy the input sets (the embedding is
functional, so the copies are implicit; the heap-level embedding
`pipelineValidateH` below makes them explicit), seed the state-field set,
then run the forward pass in list order and the reverse pass in reversed
order. `true` means the call returns without raising `ValidationError`. -/
def pipelineValidate (ms : List Contract) (step_name : String)
    (state_fields data_fields : Finset String) (sized : Bool) : Bool :=
  let sf := seedStateFields step_name state_fields sized
  match forwardPass sf ms data_fields with
  | none => false
  | some df1 =>
    match backwardPass sf ms.reverse df1 with
    | none => false
    | some _ => true

/-! ## The simulation described by the specification (spec 4.3 / 8)

The spec describes `validate` as a forward-then-backward simulation in which
the forward pass checks `requires_state_fields` and `requires_data_fields_pre`
and unions in `provides_data_fields_pre`, and the backward pass checks only
`requires_data_fields_post` and unions in `provides_data_fields_post`. These
definitions follow the spec's words; the code's reverse pass additionally
re-checks `requires_state_fields`. -/

/-- Forward pass of the spec's simulation: check the state requirement and the
pre data requirement, then union in the pre provides-set. -/
def simForwardPass (sf : Finset String) : List Contract → Finset String →
    Option (Finset String)
  | [], df => some df
  | m :: ms, df =>
    if m.requires_state_fields ⊆ sf ∧ m.requires_data_fields_pre ⊆ df then
      simForwardPass sf ms (df ∪ m.provides_data_fields_pre)
    else none

/-- Backward pass of the spec's simulation: check only the post data
requirement, then union in the post provides-set. -/
def simBackwardPass : List Contract → Finset String → Option (Finset String)
  | [], df => some df
  | m :: ms, df =>
    if m.requires_data_fields_post ⊆ df then
      simBackwardPass ms (df ∪ m.provides_data_fields_post)
    else none

/-- The whole simulation of spec 4.3: seed the state-field set with the step
key (and the count key when the loader is sized), walk forward, then walk the
reversed list backward. -/
def validateSim (ms : List Contract) (step_name : String)
    (state_fields data_fields : Finset String) (sized : Bool) : Bool :=
  let sf := seedStateFields step_name state_fields sized
  match simForwardPass sf ms data_fields with
  | none => false
  | some df1 => (simBackwardPass ms.reverse df1).isSome

/-! ## Equivalence of the code's validate and the spec's simulation -/

theorem forwardPass_eq_sim (sf : Finset String) (ms : List Contract)
    (df : Finset String) : forwardPass sf ms df = simForwardPass sf ms df := by
  induction ms generalizing df with
  | nil => rfl
  | cons m rest ih =>
    by_cases h1 : m.requires_state_fields ⊆ sf
    · by_cases h2 : m.requires_data_fields_pre ⊆ df
      · simp [forwardPass, simForwardPass, mwValidate, h1, h2, ih]
      · simp [forwardPass, simForwardPass, mwValidate, h1, h2]
    · simp [forwardPass, simForwardPass, mwValidate, h1]

theorem forwardPass_state_sub (sf : Finset String) (ms : List Contract)
    (df df1 : Finset String) (h : forwardPass sf ms df = some df1) :
    ∀ m ∈ ms, m.requires_state_fields ⊆ sf := by
  induction ms generalizing df with
  | nil => simp
  | cons m rest ih =>
    intro m1 hm1
    rcases List.mem_cons.mp hm1 with rfl | hmem
    · by_cases h1 : m1.requires_state_fields ⊆ sf
      · exact h1
      · simp [forwardPass, mwValidate, h1] at h
    · rcases hv : mwValidate m sf df true with _ | dfn
      · simp [forwardPass, hv] at h
      · rw [forwardPass, hv] at h
        exact ih dfn h m1 hmem

theorem backwardPass_eq_sim (sf : Finset String) (ms : List Contract)
    (df : Finset String) (h : ∀ m ∈ ms, m.requires_state_fields ⊆ sf) :
    backwardPass sf ms df = simBackwardPass ms df := by
  induction ms generalizing df with
  | nil => rfl
  | cons m rest ih =>
    have h1 : m.requires_state_fields ⊆ sf := h m (List.mem_cons_self m rest)
    have hrest : ∀ m1 ∈ rest, m1.requires_state_fields ⊆ sf :=
      fun m1 hm1 => h m1 (List.mem_cons_of_mem m hm1)
    by_cases h2 : m.requires_data_fields_post ⊆ df
    · simp [backwardPass, simBackwardPass, mwValidate, h1, h2, ih _ hrest]
    · simp [backwardPass, simBackwardPass, mwValidate, h1, h2]

theorem pipelineValidate_eq_sim (ms : List Contract) (step_name : String)
    (state_fields data_fields : Finset String) (sized : Bool) :
    pipelineValidate ms step_name state_fields data_fields sized =
      validateSim ms step_name state_fields data_fields sized := by
  unfold pipelineValidate validateSim
  dsimp only
  rw [forwardPass_eq_sim]
  rcases hf : simForwardPass (seedStateFields step_name state_fields sized) ms
      data_fields with _ | df1
  · rfl
  · rw [← forwardPass_eq_sim] at hf
    have hsub : ∀ m ∈ ms.reverse, m.requires_state_fields ⊆
        seedStateFields step_name state_fields sized :=
      fun m hm => forwardPass_state_sub _ _ _ _ hf m (List.mem_reverse.mp hm)
    dsimp only
    rw [backwardPass_eq_sim _ _ _ hsub]
    cases simBackwardPass ms.reverse df1 <;> rfl

/-- C1: `Pipeline.validate` succeeds (raises no `ValidationError`) iff, in the
simulation that seeds the working state-field set with the step key (plus
`num_[step_name]s` when the loader is sized), walks the middlewares forward
checking `requires_state_fields` and `requires_data_fields_pre` and unioning
in `provides_data_fields_pre`, then walks them backward checking
`requires_data_fields_post` and unioning in `provides_data_fields_post`,
every required set is a subset of the accumulated available set at the point
it is checked. -/
theorem validate_iff_simulation (ms : List Contract) (step_name : String)
    (state_fields data_fields : Finset String) (sized : Bool) :
    pipelineValidate ms step_name state_fields data_fields sized = true ↔
      validateSim ms step_name state_fields data_fields sized = true := by
  rw [pipelineValidate_eq_sim]

/-! ## State-field checks in the reverse pass (claim C4)

`Middleware._validate` performs the `requires_state_fields` check
unconditionally (middleware.py, lines 183-188), before branching on `pre`, so
the reverse pass of `Pipeline.validate` re-checks state fields. The repo's
own test `test_validate_missing_state_fields_post` pins this behavior. The
check is redundant at the `Pipeline.validate` level because the working
state-field set is the same in both passes. -/

/-- C4 counterexample: `_validate` with `pre=False` does depend on
`requires_state_fields`: two contracts differing only in that set give
different results, and the reverse pass of `Pipeline.validate` invokes that
state check. -/
theorem post_pass_checks_state_fields :
    mwValidate ⟨{"x"}, ∅, ∅, ∅, ∅⟩ ∅ ∅ false = none ∧
    mwValidate ⟨∅, ∅, ∅, ∅, ∅⟩ ∅ ∅ false = some ∅ ∧
    backwardPass ∅ [⟨{"x"}, ∅, ∅, ∅, ∅⟩] ∅ = none := by decide

/-- C4 amended: `requires_state_fields` is checked by `_validate` in both
passes, but whenever the forward pass of `Pipeline.validate` succeeded, the
backward pass's state-field checks cannot fail (the working state-field set is
unchanged between the passes), so the reverse pass behaves exactly like one
that checks only `requires_data_fields_post`. -/
theorem backward_state_checks_redundant (ms : List Contract)
    (sf df df1 d2 : Finset String) (h : forwardPass sf ms df = some df1) :
    backwardPass sf ms.reverse d2 = simBackwardPass ms.reverse d2 :=
  backwardPass_eq_sim sf ms.reverse d2
    (fun m hm => forwardPass_state_sub sf ms df df1 h m (List.mem_reverse.mp hm))

/-- Witness for `backward_state_checks_redundant` at a concrete pipeline. -/
theorem backward_state_checks_redundant_w :
    backwardPass ∅ ([⟨∅, {"a"}, ∅, ∅, ∅⟩] : List Contract).reverse ∅ =
      simBackwardPass ([⟨∅, {"a"}, ∅, ∅, ∅⟩] : List Contract).reverse ∅ :=
  backward_state_checks_redundant [⟨∅, {"a"}, ∅, ∅, ∅⟩] ∅ {"a"} {"a"} ∅
    (by decide)

/-! ## `PipelineWrapper._validate` and the outer working state-field set
(pipeline.py, lines 248-277)

A middleware in a pipeline whose validation matters is either a plain
middleware (validated through `Middleware._validate`) or a `PipelineWrapper`,
which overrides `_validate`: during the forward (`pre`) phase it calls
`inner.validate(state_fields, inner_loader.data_fields, inner_sized)`, and in
the backward phase it does nothing. Because `Pipeline.validate` immediately
copies its `state_fields` argument (pipeline.py, line 101), the delegated call
can never mutate the outer working state-field set. The embedding returns the
pair (state_fields, data_fields) as the caller sees them after `_validate`
returns, mirroring the by-reference arguments. Inner pipelines here contain
plain middlewares, which covers the failing input. -/

inductive MwV where
  | base (c : Contract)
  | wrapper (innerMs : List Contract) (innerStepName : String)
      (innerDataFields : Finset String) (innerSized : Bool)

/-- Embedding of `_validate` dispatch over the two middleware variants. For a
`PipelineWrapper` (pipeline.py, lines 248-277): on the `pre` phase, delegate
to the inner pipeline's `validate` with the current working state-field set
and the inner loader's declared fields and sizedness; the inner `validate`
works on copies, so the state-field set the caller sees afterwards is
unchanged. The `data_fields` argument is unused by the wrapper (ARG002). -/
def mwValidateV : MwV → Finset String → Finset String → Bool →
    Option (Finset String × Finset String)
  | .base c, sf, df, pre => (mwValidate c sf df pre).map (fun df1 => (sf, df1))
  | .wrapper innerMs innerStepName innerDataFields innerSized, sf, df, pre =>
    if pre then
      if pipelineValidate innerMs innerStepName sf innerDataFields innerSized
      then some (sf, df) else none
    else some (sf, df)

/-- Forward pass of `Pipeline.validate` threading both working sets through
the variant-aware `_validate` (pre=True). -/
def forwardPassV : List MwV → Finset String × Finset String →
    Option (Finset String × Finset String)
  | [], p => some p
  | m :: ms, p =>
    match mwValidateV m p.1 p.2 true with
    | none => none
    | some p1 => forwardPassV ms p1

/-- Reverse pass of `Pipeline.validate` over the reversed list (pre=False). -/
def backwardPassV : List MwV → Finset String × Finset String →
    Option (Finset String × Finset String)
  | [], p => some p
  | m :: ms, p =>
    match mwValidateV m p.1 p.2 false with
    | none => none
    | some p1 => backwardPassV ms p1

/-- `Pipeline.validate` over the two middleware variants. -/
def pipelineValidateV (ms : List MwV) (step_name : String)
    (state_fields data_fields : Finset String) (sized : Bool) : Bool :=
  let sf := seedStateFields step_name state_fields sized
  match forwardPassV ms (sf, data_fields) with
  | none => false
  | some p1 => (backwardPassV ms.reverse p1).isSome

/-- Modelled from the spec (4.5): the wrapper's delegation "may extend
`state_fields` with the inner pipeline's step/count keys", the behavior also
described by the docstring of `Pipeline.validate` (pipeline.py, lines 70-73:
`PipelineWrapper` "adds its own step/num_steps fields" for subsequent
middlewares). Identical to `mwValidateV` except that on a successful `pre`
delegation the returned state-field set is extended with the inner step key
and, for a sized inner loader, the inner count key. -/
def mwValidateSpecV : MwV → Finset String → Finset String → Bool →
    Option (Finset String × Finset String)
  | .base c, sf, df, pre => (mwValidate c sf df pre).map (fun df1 => (sf, df1))
  | .wrapper innerMs innerStepName innerDataFields innerSized, sf, df, pre =>
    if pre then
      if pipelineValidate innerMs innerStepName sf innerDataFields innerSized
      then some (seedStateFields innerStepName sf innerSized, df) else none
    else some (sf, df)

/-- Forward pass under the spec's wrapper behavior. -/
def forwardPassSpecV : List MwV → Finset String × Finset String →
    Option (Finset String × Finset String)
  | [], p => some p
  | m :: ms, p =>
    match mwValidateSpecV m p.1 p.2 true with
    | none => none
    | some p1 => forwardPassSpecV ms p1

/-- `Pipeline.validate` under the spec's wrapper behavior (the reverse pass is
unchanged: the wrapper's post phase is a no-op either way). -/
def pipelineValidateSpecV (ms : List MwV) (step_name : String)
    (state_fields data_fields : Finset String) (sized : Bool) : Bool :=
  let sf := seedStateFields step_name state_fields sized
  match forwardPassSpecV ms (sf, data_fields) with
  | none => false
  | some p1 => (backwardPassV ms.reverse p1).isSome

/-- C3, evaluated at the failing input: the wrapper's delegation returns with
the outer working state-field set unchanged (no inner step/count key is
added), so an outer pipeline `[PipelineWrapper(inner), M]` with
`M.requires_state_fields = ("step")` fails validation, while under the
behavior stated by the claim, the spec (4.5) and the code's own docstring it
would succeed. -/
theorem wrapper_delegation_blocked :
    mwValidateV (.wrapper [] "step" ∅ true) {"epoch"} ∅ true =
      some ({"epoch"}, ∅) ∧
    pipelineValidateV
      [.wrapper [] "step" ∅ true, .base ⟨{"step"}, ∅, ∅, ∅, ∅⟩]
      "epoch" ∅ ∅ false = false ∧
    pipelineValidateSpecV
      [.wrapper [] "step" ∅ true, .base ⟨{"step"}, ∅, ∅, ∅, ∅⟩]
      "epoch" ∅ ∅ false = true := by decide

/-! ## Heap-level embedding of `Pipeline.validate` (claim C8)

Claim C8 is about mutation: the caller's set objects must be unchanged after
`validate`. Python set objects are modelled as cells of a heap `Nat → Finset
String`; the caller passes the addresses of its two sets, and `nfree` is the
lowest address not yet in use, where the copies made by `validate` are placed.
Every `add`/`update` the Python code performs is an explicit heap write. -/

abbrev Heap := Nat → Finset String

/-- Write cell `i` of the heap. -/
def hset (h : Heap) (i : Nat) (v : Finset String) : Heap :=
  fun j => if j = i then v else h j

/-- Heap-level `Middleware._validate` (middleware.py, lines 167-207): reads
the two cells, and on success mutates the `data_fields` cell in place
(`data_fields.update(...)`). The boolean is `false` when `ValidationError` is
raised. -/
def mwValidateH (m : Contract) (h : Heap) (sfRef dfRef : Nat) (pre : Bool) :
    Heap × Bool :=
  if m.requires_state_fields ⊆ h sfRef then
    if pre then
      if m.requires_data_fields_pre ⊆ h dfRef then
        (hset h dfRef (h dfRef ∪ m.provides_data_fields_pre), true)
      else (h, false)
    else
      if m.requires_data_fields_post ⊆ h dfRef then
        (hset h dfRef (h dfRef ∪ m.provides_data_fields_post), true)
      else (h, false)
  else (h, false)

/-- Heap-level forward pass of `Pipeline.validate`. -/
def forwardPassH : List Contract → Heap → Nat → Nat → Heap × Bool
  | [], h, _, _ => (h, true)
  | m :: ms, h, sfRef, dfRef =>
    match mwValidateH m h sfRef dfRef true with
    | (h1, true) => forwardPassH ms h1 sfRef dfRef
    | (h1, false) => (h1, false)

/-- Heap-level reverse pass of `Pipeline.validate` (called on the reversed
middleware list). -/
def backwardPassH : List Contract → Heap → Nat → Nat → Heap × Bool
  | [], h, _, _ => (h, true)
  | m :: ms, h, sfRef, dfRef =>
    match mwValidateH m h sfRef dfRef false with
    | (h1, true) => backwardPassH ms h1 sfRef dfRef
    | (h1, false) => (h1, false)

/-- The opening lines of `Pipeline.validate` (pipeline.py, lines 99-105) at
heap level: `data_fields = set(data_fields)` places a copy at fresh address
`nfree`, `state_fields = set(state_fields)` places a copy at `nfree + 1`, then
the step key and (for a sized loader) the count key are added to the
state-field copy, in place. -/
def validateHeapInit (step_name : String) (h : Heap)
    (nfree sfRef dfRef : Nat) (sized : Bool) : Heap :=
  let h1 := hset h nfree (h dfRef)
  let h2 := hset h1 (nfree + 1) (h1 sfRef)
  let h3 := hset h2 (nfree + 1) (insert step_name (h2 (nfree + 1)))
  if sized then
    hset h3 (nfree + 1) (insert ("num_" ++ step_name ++ "s") (h3 (nfree + 1)))
  else h3

/-- Heap-level `Pipeline.validate` (pipeline.py, lines 53-126): after the
copies and seeding of `validateHeapInit`, both passes work on the copies at
addresses `nfree + 1` (state fields) and `nfree` (data fields). -/
def pipelineValidateH (ms : List Contract) (step_name : String) (h : Heap)
    (nfree sfRef dfRef : Nat) (sized : Bool) : Heap × Bool :=
  let h4 := validateHeapInit step_name h nfree sfRef dfRef sized
  match forwardPassH ms h4 (nfree + 1) nfree with
  | (h5, true) => backwardPassH ms.reverse h5 (nfree + 1) nfree
  | (h5, false) => (h5, false)

theorem mwValidateH_frame (m : Contract) (h : Heap) (sfRef dfRef : Nat)
    (pre : Bool) (j : Nat) (hj : j ≠ dfRef) :
    (mwValidateH m h sfRef dfRef pre).1 j = h j := by
  unfold mwValidateH
  split_ifs <;> simp [hset, hj]

theorem forwardPassH_frame (ms : List Contract) (h : Heap)
    (sfRef dfRef j : Nat) (hj : j ≠ dfRef) :
    (forwardPassH ms h sfRef dfRef).1 j = h j := by
  induction ms generalizing h with
  | nil => rfl
  | cons m rest ih =>
    unfold forwardPassH
    rcases hv : mwValidateH m h sfRef dfRef true with ⟨h1, ok⟩
    have hm : h1 j = h j := by
      have hfr := mwValidateH_frame m h sfRef dfRef true j hj
      rw [hv] at hfr
      exact hfr
    cases ok
    · exact hm
    · rw [ih h1]
      exact hm

theorem backwardPassH_frame (ms : List Contract) (h : Heap)
    (sfRef dfRef j : Nat) (hj : j ≠ dfRef) :
    (backwardPassH ms h sfRef dfRef).1 j = h j := by
  induction ms generalizing h with
  | nil => rfl
  | cons m rest ih =>
    unfold backwardPassH
    rcases hv : mwValidateH m h sfRef dfRef false with ⟨h1, ok⟩
    have hm : h1 j = h j := by
      have hfr := mwValidateH_frame m h sfRef dfRef false j hj
      rw [hv] at hfr
      exact hfr
    cases ok
    · exact hm
    · rw [ih h1]
      exact hm

theorem validateHeapInit_frame (step_name : String) (h : Heap)
    (nfree sfRef dfRef : Nat) (sized : Bool) (i : Nat) (hi : i < nfree) :
    validateHeapInit step_name h nfree sfRef dfRef sized i = h i := by
  have hi1 : i ≠ nfree := by omega
  have hi2 : i ≠ nfree + 1 := by omega
  unfold validateHeapInit
  split_ifs <;> simp [hset, hi1, hi2]

/-- C8: after any call to `Pipeline.validate`, whether it returns normally or
raises `ValidationError`, every heap cell the caller had before the call — in
particular the caller's `state_fields` and `data_fields` sets — holds exactly
its old value: `validate` works only on the copies it places at the fresh
addresses. -/
theorem validate_preserves_caller_sets (ms : List Contract)
    (step_name : String) (h : Heap) (nfree sfRef dfRef : Nat) (sized : Bool)
    (i : Nat) (hs : sfRef < nfree) (hd : dfRef < nfree) (hi : i < nfree) :
    (pipelineValidateH ms step_name h nfree sfRef dfRef sized).1 i = h i := by
  have hi1 : i ≠ nfree := by omega
  rcases hf : forwardPassH ms
      (validateHeapInit step_name h nfree sfRef dfRef sized)
      (nfree + 1) nfree with ⟨h5, ok⟩
  have h5i : h5 i = h i := by
    have hfr := forwardPassH_frame ms
      (validateHeapInit step_name h nfree sfRef dfRef sized)
      (nfree + 1) nfree i hi1
    rw [hf] at hfr
    exact hfr.trans
      (validateHeapInit_frame step_name h nfree sfRef dfRef sized i hi)
  unfold pipelineValidateH
  dsimp only
  rw [hf]
  cases ok
  · exact h5i
  · exact (backwardPassH_frame ms.reverse h5 (nfree + 1) nfree i hi1).trans h5i

/-- A concrete caller heap: the caller's `state_fields` set lives at address
0, its `data_fields` set at address 1, and addresses from 2 up are free. -/
def heapW : Heap :=
  fun j => if j = 0 then {"s0"} else if j = 1 then {"d0"} else ∅

/-- Witness for `validate_preserves_caller_sets` at a concrete input. -/
theorem validate_preserves_caller_sets_w :
    (pipelineValidateH [⟨∅, {"d0"}, ∅, ∅, ∅⟩] "step" heapW 2 0 1 false).1 0 =
      heapW 0 :=
  validate_preserves_caller_sets [⟨∅, {"d0"}, ∅, ∅, ∅⟩] "step" heapW 2 0 1
    false 0 (by decide) (by decide) (by decide)

/-! ## Execution model: state, data, signals, processing steps

`Pipeline.run` (pipeline.py, lines 128-216) drives a shared mutable `state`
mapping and per-record `data` mappings through the composed middleware chain.
Mappings are modelled as association lists with Python-dict update semantics.
The control-flow exceptions `SkipStep`/`AbortPipeline` (errors.py) raised by a
step are modelled as an `Option Signal` in every step's result: a middleware's
code after `next_step` runs only when no signal is propagating, exactly as
Python code after the call site is skipped by a propagating exception. -/

/-- Values held in state/data mappings (integers, strings, lists suffice for
the runs the claims describe). -/
inductive Value where
  | int (n : Int)
  | str (s : String)
  | vlist (l : List Value)

/-- The shared state mapping. -/
abbrev St := List (String × Value)

/-- A per-record data mapping. -/
abbrev Data := List (String × Value)

/-- Python-dict assignment `st[k] = v`: an existing key keeps its position,
a new key is appended. -/
def setKey : St → String → Value → St
  | [], k, v => [(k, v)]
  | (k1, v1) :: rest, k, v =>
    if k1 = k then (k1, v) :: rest else (k1, v1) :: setKey rest k v

/-- Python-dict lookup `st[k]` (as an `Option`). -/
def getKey : St → String → Option Value
  | [], _ => none
  | (k1, v1) :: rest, k => if k1 = k then some v1 else getKey rest k

/-- Python `set(state.keys())`. -/
def stKeys (st : St) : Finset String := (st.map Prod.fst).toFinset

/-- Python `state[k].append(v)` for a list-valued key (the fallback branch is
unreachable in the runs below, where the key always holds a list). -/
def appendKey (st : St) (k : String) (v : Value) : St :=
  match getKey st k with
  | some (.vlist l) => setKey st k (.vlist (l ++ [v]))
  | _ => setKey st k (.vlist [v])

/-- The two control-flow exceptions of errors.py. -/
inductive Signal where
  | skipStep
  | abortPipeline
deriving DecidableEq

/-- A processing step `(state, data) -> None`: it may mutate both mappings and
may raise a control signal that propagates outward. -/
abbrev Step := St → Data → St × Data × Option Signal

/-- `_empty_sink` (pipeline.py, lines 219-221). -/
def emptySink : Step := fun state data => (state, data, none)

/-- The contract with all five sets empty, as set by `Middleware.__init__`. -/
def emptyContract : Contract := ⟨∅, ∅, ∅, ∅, ∅⟩

/-- An executable middleware: its declared contract (used by `run`'s
validation), its `wrap`, and its `on_start`/`on_finish` hooks. -/
structure MwE where
  contract : Contract
  wrap : Step → Step
  on_start : St → St
  on_finish : St → St

/-- A pipeline: the ordered middleware sequence and the `step_name` key. -/
structure PipelineE where
  middlewares : List MwE
  step_name : String

/-- The composed callable built by `Pipeline.__init__` (pipeline.py, lines
49-51): start from the empty sink and wrap it by each middleware in reverse
order, so that execution on the forward pass follows sequence order. -/
def composedRun (p : PipelineE) : Step :=
  p.middlewares.reverse.foldl (fun acc m => m.wrap acc) emptySink

/-- A loader: its record sequence, whether it is `Sized`, and its declared
`data_fields`. -/
structure LoaderE where
  records : List Data
  sized : Bool
  data_fields : Finset String

/-- The calls `Pipeline.run` makes, in order: hook invocations (with the
middleware's index in the sequence) and the consumption of record `k` from
the loader. -/
inductive Event where
  | onStart (i : Nat)
  | onFinish (i : Nat)
  | consume (k : Nat)
deriving DecidableEq

/-- Whether an event is a record consumption. -/
def Event.isConsume : Event → Bool
  | .consume _ => true
  | _ => false

/-- How the main loop of `run` ended: loader exhausted, or `AbortPipeline`
caught while processing record `k`. -/
inductive LoopExit where
  | exhausted
  | aborted (k : Nat)
deriving DecidableEq

/-- One of the two hook loops of `run` (pipeline.py, lines 192-193 and
215-216): invoke the hook of every middleware in forward order, recording one
event per call. -/
def hookLoop (hook : MwE → St → St) (mk : Nat → Event) :
    List MwE → Nat → St → St × List Event
  | [], _, st => (st, [])
  | m :: ms, i, st =>
    let r := hookLoop hook mk ms (i + 1) (hook m st)
    (r.1, mk i :: r.2)

/-- The main loop of `run` (pipeline.py, lines 205-213): for each record, in
order, write the step index under `step_name`, execute the composed step,
break on `AbortPipeline`, continue otherwise (`SkipStep` and normal return
both proceed to the next record). Each record pulled from the loader is
recorded as a `consume` event. -/
def runLoop (step : Step) (step_name : String) :
    List Data → Nat → St → St × List Event × LoopExit
  | [], _, st => (st, [], .exhausted)
  | d :: ds, k, st =>
    let res := step (setKey st step_name (.int (Int.ofNat k))) d
    match res.2.2 with
    | some .abortPipeline => (res.1, [.consume k], .aborted k)
    | _ =>
      let r := runLoop step step_name ds (k + 1) res.1
      (r.1, .consume k :: r.2.1, r.2.2)

/-- Result of `Pipeline.run`: the final shared state, the trace of calls made,
whether a `ValidationError` propagated to the caller, and how the loop
ended. -/
structure RunResult where
  state : St
  trace : List Event
  error : Bool
  exit : LoopExit

/-- The state just before the main loop (pipeline.py, lines 192-196): after
the `on_start` hooks and, for a sized loader, the write of the record count
under `num_[step_name]s`. -/
def preLoopState (p : PipelineE) (st : St) (l : LoaderE) : St :=
  let st1 := (hookLoop (fun m => m.on_start) Event.onStart p.middlewares 0 st).1
  if l.sized then
    setKey st1 ("num_" ++ p.step_name ++ "s")
      (.int (Int.ofNat l.records.length))
  else st1

/-- Embedding of `Pipeline.run` (pipeline.py, lines 128-216): `on_start`
hooks in forward order; count-key write for a sized loader; validation
against the current state's key set (a raised `ValidationError` propagates:
`error = true`, and nothing further runs); the main loop; then `on_finish`
hooks in forward order. -/
def pipelineRun (p : PipelineE) (st : St) (l : LoaderE) (validate : Bool) :
    RunResult :=
  let startEvs :=
    (hookLoop (fun m => m.on_start) Event.onStart p.middlewares 0 st).2
  let st2 := preLoopState p st l
  if validate &&
      !(pipelineValidate (p.middlewares.map (fun m => m.contract)) p.step_name
        (stKeys st2) l.data_fields l.sized) then
    ⟨st2, startEvs, true, .exhausted⟩
  else
    let r := runLoop (composedRun p) p.step_name l.records 0 st2
    let f := hookLoop (fun m => m.on_finish) Event.onFinish p.middlewares 0 r.1
    ⟨f.1, startEvs ++ r.2.1 ++ f.2, false, r.2.2⟩

/-- The events the main loop of `run` emits (the loop's slice of the trace of
`pipelineRun`, when validation passed). -/
def loopEvents (p : PipelineE) (st : St) (l : LoaderE) : List Event :=
  (runLoop (composedRun p) p.step_name l.records 0 (preLoopState p st l)).2.1

/-! ## Trace lemmas for `run` -/

theorem hookLoop_events (hook : MwE → St → St) (mk : Nat → Event)
    (ms : List MwE) (i : Nat) (st : St) :
    (hookLoop hook mk ms i st).2 = (List.range' i ms.length).map mk := by
  induction ms generalizing i st with
  | nil => rfl
  | cons m rest ih => simp [hookLoop, ih, List.range'_succ]

theorem runLoop_events_consume (step : Step) (step_name : String)
    (ds : List Data) (k : Nat) (st : St) :
    ∀ e ∈ (runLoop step step_name ds k st).2.1, e.isConsume = true := by
  induction ds generalizing k st with
  | nil => simp [runLoop]
  | cons d rest ih =>
    intro e he
    rcases hsig : (step (setKey st step_name (.int (Int.ofNat k))) d).2.2
      with _ | g
    · simp only [runLoop, hsig, List.mem_cons] at he
      rcases he with rfl | he
      · rfl
      · exact ih _ _ e he
    · cases g
      · simp only [runLoop, hsig, List.mem_cons] at he
        rcases he with rfl | he
        · rfl
        · exact ih _ _ e he
      · simp only [runLoop, hsig, List.mem_cons, List.not_mem_nil, or_false]
          at he
        rcases he with rfl
        rfl

theorem runLoop_abort (step : Step) (step_name : String) (ds : List Data)
    (k0 : Nat) (st : St) (k : Nat)
    (h : (runLoop step step_name ds k0 st).2.2 = .aborted k) :
    k0 ≤ k ∧ (runLoop step step_name ds k0 st).2.1 =
      (List.range' k0 (k + 1 - k0)).map Event.consume := by
  induction ds generalizing k0 st with
  | nil => simp [runLoop] at h
  | cons d rest ih =>
    rcases hsig : (step (setKey st step_name (.int (Int.ofNat k0))) d).2.2
      with _ | g
    · simp only [runLoop, hsig] at h ⊢
      obtain ⟨hle, hevs⟩ := ih _ _ h
      refine ⟨by omega, ?_⟩
      have harith : k + 1 - k0 = (k + 1 - (k0 + 1)) + 1 := by omega
      rw [hevs, harith, List.range'_succ]
      simp
    · cases g
      · simp only [runLoop, hsig] at h ⊢
        obtain ⟨hle, hevs⟩ := ih _ _ h
        refine ⟨by omega, ?_⟩
        have harith : k + 1 - k0 = (k + 1 - (k0 + 1)) + 1 := by omega
        rw [hevs, harith, List.range'_succ]
        simp
      · simp only [runLoop, hsig] at h ⊢
        cases h
        simp [List.range'_succ]

/-! ## Claim C2: onion execution order -/

/-- A middleware that appends `nm ++ "-before"` to the state list under
`"trace"` before calling `next_step` and `nm ++ "-after"` after it returns
(the after-code is skipped when a signal propagates, as in Python). -/
def traceMw (nm : String) : MwE where
  contract := emptyContract
  wrap := fun next => fun state data =>
    let st1 := appendKey state "trace" (.str (nm ++ "-before"))
    match next st1 data with
    | (st2, d2, none) =>
      (appendKey st2 "trace" (.str (nm ++ "-after")), d2, none)
    | (st2, d2, some g) => (st2, d2, some g)
  on_start := fun s => s
  on_finish := fun s => s

/-- C2: for a pipeline of middlewares A, B, C each appending an identifier to
a state list before and after calling `next_step`, one run over a single
record yields the trace `["A-before", "B-before", "C-before", "C-after",
"B-after", "A-after"]`: forward-pass code runs in sequence order, post-call
code in reverse order, as produced by the fold in `composedRun`. -/
theorem onion_order_trace :
    getKey (pipelineRun ⟨[traceMw "A", traceMw "B", traceMw "C"], "step"⟩
        [("trace", Value.vlist [])] ⟨[[]], true, ∅⟩ true).state "trace" =
      some (Value.vlist [.str "A-before", .str "B-before", .str "C-before",
        .str "C-after", .str "B-after", .str "A-after"]) := by
  rfl

/-! ## Claim C5: lifecycle hooks -/

/-- A middleware whose wrapped step just calls `next_step`, with a given
contract (the `_SimpleMiddleware` of the repo's tests). -/
def simpleMw (c : Contract) : MwE where
  contract := c
  wrap := fun next => fun state data => next state data
  on_start := fun s => s
  on_finish := fun s => s

/-- A pipeline whose single middleware requires a state field that is never
present, so that `run`'s validation fails. -/
def failP : PipelineE := ⟨[simpleMw ⟨{"miss"}, ∅, ∅, ∅, ∅⟩], "step"⟩

/-- A one-record sized loader with no declared fields. -/
def failLoader : LoaderE := ⟨[[]], true, ∅⟩

/-- C5 counterexample: when `run` raises `ValidationError`, the `on_start`
hook has been called (once, before validation) but the `on_finish` hook is
never called: the trace of the run contains no `onFinish` event, so the hooks
are not "each called exactly once per invocation". -/
theorem validation_failure_skips_on_finish :
    (pipelineRun failP [] failLoader true).error = true ∧
    (pipelineRun failP [] failLoader true).trace = [Event.onStart 0] ∧
    Event.onFinish 0 ∉ (pipelineRun failP [] failLoader true).trace := by
  decide

/-- C5 amended: on every invocation of `run`, each middleware's `on_start`
hook is called exactly once, in forward order, before validation and before
any record is consumed; when the loop runs (ending by exhaustion or abort),
each `on_finish` hook is then called exactly once, in forward order, after
the loop; but when `run` raises `ValidationError`, the trace ends with the
`on_start` calls — no `on_finish` hook is called. -/
theorem run_hooks (p : PipelineE) (st : St) (l : LoaderE) (v : Bool) :
    ((pipelineRun p st l v).error = true →
      (pipelineRun p st l v).trace =
        (List.range p.middlewares.length).map Event.onStart) ∧
    ((pipelineRun p st l v).error = false →
      (pipelineRun p st l v).trace =
        (List.range p.middlewares.length).map Event.onStart ++
        loopEvents p st l ++
        (List.range p.middlewares.length).map Event.onFinish ∧
      ∀ e ∈ loopEvents p st l, e.isConsume = true) := by
  by_cases hg : (v &&
      !(pipelineValidate (p.middlewares.map (fun m => m.contract)) p.step_name
        (stKeys (preLoopState p st l)) l.data_fields l.sized)) = true
  · constructor
    · intro _
      simp [pipelineRun, hg, hookLoop_events, List.range_eq_range']
    · intro hfalse
      simp [pipelineRun, hg] at hfalse
  · constructor
    · intro htrue
      simp [pipelineRun, hg] at htrue
    · intro _
      refine ⟨?_, ?_⟩
      · simp [pipelineRun, loopEvents, hg, hookLoop_events,
          List.range_eq_range']
      · exact fun e he => runLoop_events_consume _ _ _ _ _ e he

/-- A pipeline and loader for which `run` validates and completes. -/
def pW : PipelineE := ⟨[simpleMw emptyContract], "step"⟩

/-- A one-record unsized loader. -/
def lW : LoaderE := ⟨[[]], false, ∅⟩

/-- Witness for `run_hooks` at a concrete passing run. -/
theorem run_hooks_w :
    (pipelineRun pW [] lW false).trace =
      [Event.onStart 0, Event.consume 0, Event.onFinish 0] :=
  ((run_hooks pW [] lW false).2 (by decide)).1

/-! ## Claim C6: abort stops consumption, hooks still run -/

/-- C6: if, during `run`, the composed step raises `AbortPipeline` while
processing record `k`, then the records consumed from the loader are exactly
records 0 through `k` (none after `k`), the abort does not propagate past
`run` (the run reports no error), and every `on_finish` hook still runs,
once, in forward order, after the loop. -/
theorem abort_stops_consumption (p : PipelineE) (st : St) (l : LoaderE)
    (v : Bool) (k : Nat) (h : (pipelineRun p st l v).exit = .aborted k) :
    (pipelineRun p st l v).error = false ∧
    (pipelineRun p st l v).trace =
      (List.range p.middlewares.length).map Event.onStart ++
      (List.range (k + 1)).map Event.consume ++
      (List.range p.middlewares.length).map Event.onFinish := by
  by_cases hg : (v &&
      !(pipelineValidate (p.middlewares.map (fun m => m.contract)) p.step_name
        (stKeys (preLoopState p st l)) l.data_fields l.sized)) = true
  · simp [pipelineRun, hg] at h
  · have hexit : (runLoop (composedRun p) p.step_name l.records 0
        (preLoopState p st l)).2.2 = .aborted k := by
      simpa [pipelineRun, hg] using h
    obtain ⟨-, hevs⟩ := runLoop_abort (composedRun p) p.step_name l.records 0
      (preLoopState p st l) k hexit
    constructor
    · simp [pipelineRun, hg]
    · simp [pipelineRun, hg, hookLoop_events, hevs, List.range_eq_range']

/-- A middleware that immediately raises `AbortPipeline`. -/
def abortMw : MwE where
  contract := emptyContract
  wrap := fun _next => fun state data => (state, data, some .abortPipeline)
  on_start := fun s => s
  on_finish := fun s => s

/-- A pipeline aborting on its first record. -/
def abortP : PipelineE := ⟨[abortMw], "step"⟩

/-- A two-record unsized loader. -/
def twoLoader : LoaderE := ⟨[[], []], false, ∅⟩

/-- Witness for `abort_stops_consumption`: aborting at record 0 of a
two-record loader consumes only record 0 and still runs `on_finish`. -/
theorem abort_stops_consumption_w :
    (pipelineRun abortP [] twoLoader false).error = false ∧
    (pipelineRun abortP [] twoLoader false).trace =
      (List.range 1).map Event.onStart ++ (List.range 1).map Event.consume ++
      (List.range 1).map Event.onFinish :=
  abort_stops_consumption abortP [] twoLoader false 0 (by decide)

/-! ## Claim C7: skip abandons one record only -/

/-- Python `state["step"] + 1` (the fallback is unreachable in the run
below). -/
def incrStep (v : Option Value) : Value :=
  match v with
  | some (.int n) => .int (n + 1)
  | _ => .int 0

/-- Whether an optional value is a given integer. -/
def isIntVal (v : Option Value) (n : Int) : Bool :=
  match v with
  | some (.int m) => m == n
  | _ => false

/-- The `AccMiddleware` of the repo's tests: call `next_step`, then append
`state["value"]` to `state["acc"]` (skipped when a signal propagates). -/
def accMw : MwE where
  contract := emptyContract
  wrap := fun next => fun state data =>
    match next state data with
    | (st2, d2, none) =>
      (appendKey st2 "acc" ((getKey st2 "value").getD (.int 0)), d2, none)
    | (st2, d2, some g) => (st2, d2, some g)
  on_start := fun s => s
  on_finish := fun s => s

/-- The skipping middleware of `test_skip_step`: write
`state["value"] = state["step"] + 1`, then raise `SkipStep` when the step
index is 1. -/
def skipAtOneMw : MwE where
  contract := emptyContract
  wrap := fun _next => fun state data =>
    let st1 := setKey state "value" (incrStep (getKey state "step"))
    if isIntVal (getKey state "step") 1 then (st1, data, some .skipStep)
    else (st1, data, none)
  on_start := fun s => s
  on_finish := fun s => s

/-- The pipeline of `test_skip_step`. -/
def skipP : PipelineE := ⟨[accMw, skipAtOneMw], "step"⟩

/-- A three-record sized loader of empty records (`EmptyLoader(3)`). -/
def threeLoader : LoaderE := ⟨[[], [], []], true, ∅⟩

/-- C7: skipping exactly at step index 1 of a three-record run leaves the
effects of steps 0 and 2 only (`acc == [1, 3]`), while all three records are
still consumed from the loader and the step-index key advances normally
(records 0, 1, 2 are consumed and the key ends at 2). -/
theorem skip_keeps_consuming :
    (pipelineRun skipP [("acc", Value.vlist [])] threeLoader true).error
      = false ∧
    getKey (pipelineRun skipP [("acc", Value.vlist [])] threeLoader true).state
      "acc" = some (Value.vlist [.int 1, .int 3]) ∧
    getKey (pipelineRun skipP [("acc", Value.vlist [])] threeLoader true).state
      "step" = some (.int 2) ∧
    (pipelineRun skipP [("acc", Value.vlist [])] threeLoader true).trace =
      [Event.onStart 0, Event.onStart 1, Event.consume 0, Event.consume 1,
        Event.consume 2, Event.onFinish 0, Event.onFinish 1] ∧
    (pipelineRun skipP [("acc", Value.vlist [])] threeLoader true).exit =
      LoopExit.exhausted := by
  exact ⟨rfl, rfl, rfl, rfl, rfl⟩

/-! ## Claim C10: a nested pipeline's abort is contained -/

/-- The inner middleware: appends `"in"` to `state["innerAcc"]` on step 0 and
raises `AbortPipeline` on step 1. -/
def innerAbortMw : MwE where
  contract := emptyContract
  wrap := fun _next => fun state data =>
    if isIntVal (getKey state "step") 1 then (state, data, some .abortPipeline)
    else (appendKey state "innerAcc" (.str "in"), data, none)
  on_start := fun s => s
  on_finish := fun s => s

/-- The inner pipeline. -/
def innerP : PipelineE := ⟨[innerAbortMw], "step"⟩

/-- The inner loader: three empty records, sized. -/
def innerLoader : LoaderE := ⟨[[], [], []], true, ∅⟩

/-- `PipelineWrapper.wrap` (pipeline.py, lines 279-304): the wrapped step
runs the inner pipeline on the shared state with `validate=False`, then calls
`next_step`. -/
def wrapperMwE (inner : PipelineE) (loader : LoaderE) : MwE where
  contract := emptyContract
  wrap := fun next => fun state data =>
    let r := pipelineRun inner state loader false
    next r.state data
  on_start := fun s => s
  on_finish := fun s => s

/-- An outer middleware placed after the wrapper: appends the outer step
index (`state["epoch"]`) to `state["outerAcc"]`, then calls `next_step`. -/
def outerRecMw : MwE where
  contract := emptyContract
  wrap := fun next => fun state data =>
    next (appendKey state "outerAcc" ((getKey state "epoch").getD (.int 0)))
      data
  on_start := fun s => s
  on_finish := fun s => s

/-- The outer pipeline: the wrapper around `innerP`, then a recording
middleware. -/
def outerP : PipelineE := ⟨[wrapperMwE innerP innerLoader, outerRecMw], "epoch"⟩

/-- The outer loader: two empty records, unsized. -/
def outerLoader : LoaderE := ⟨[[], []], false, ∅⟩

/-- The initial shared state for the nested run. -/
def outerSt : St := [("innerAcc", Value.vlist []), ("outerAcc", Value.vlist [])]

/-- C10: an `AbortPipeline` raised by a middleware of the nested pipeline is
consumed by the inner run's own loop (the inner run returns with
`exit = aborted 1`); the outer wrapper step still calls `next_step` (the
recording middleware after it runs on every outer record), and the outer
pipeline consumes all its records and finishes normally, with one inner
effect per outer record. -/
theorem nested_abort_contained :
    (pipelineRun innerP outerSt innerLoader false).exit = LoopExit.aborted 1 ∧
    (pipelineRun outerP outerSt outerLoader false).error = false ∧
    (pipelineRun outerP outerSt outerLoader false).exit =
      LoopExit.exhausted ∧
    getKey (pipelineRun outerP outerSt outerLoader false).state "outerAcc" =
      some (Value.vlist [.int 0, .int 1]) ∧
    getKey (pipelineRun outerP outerSt outerLoader false).state "innerAcc" =
      some (Value.vlist [.str "in", .str "in"]) ∧
    (pipelineRun outerP outerSt outerLoader false).trace =
      [Event.onStart 0, Event.onStart 1, Event.consume 0, Event.consume 1,
        Event.onFinish 0, Event.onFinish 1] := by
  exact ⟨rfl, rfl, rfl, rfl, rfl, rfl⟩

/-! ## Claim C9: `wrap_iterable` round-trip (loader.py)

`WrappedUnsizedLoader.__iter__` (loader.py, lines 113-126) lazily converts
each sequence-shaped record of the wrapped source into
`dict(zip(self.data_fields_seq, batch, strict=True))`. For distinct field
names that dict is exactly the ordered association list `fields.zip batch`;
`strict=True` raises `ValueError` when the lengths differ, at the moment that
record is consumed. Iteration is modelled as the list of records yielded
before any error together with a flag saying whether the shape-mismatch error
was raised. -/

/-- Embedding of `dict(zip(fields, batch, strict=True))`: `none` models the
`ValueError` raised on a length mismatch. -/
def zipStrict : List String → List Value → Option (List (String × Value))
  | [], [] => some []
  | k :: ks, v :: vs => (zipStrict ks vs).map (fun r => (k, v) :: r)
  | _, _ => none

/-- Consuming the wrapped iterator: records are converted one at a time, in
order; the records before the first mismatched one are yielded, and the
mismatch (when hit) raises at that point (`true` flag), leaving the rest
unconsumed. -/
def iterWrapped (fields : List String) : List (List Value) → List Data × Bool
  | [] => ([], false)
  | b :: bs =>
    match zipStrict fields b with
    | none => ([], true)
    | some d =>
      let r := iterWrapped fields bs
      (d :: r.1, r.2)

/-- `WrappedUnsizedLoader.__init__` / `wrap_iterable` (loader.py, lines
94-111 and 149-177): stores the source and the field names, and exposes
`data_fields = set(data_fields)`; no record is inspected at construction
time, and `validate` consumes only the `data_fields` name set, never record
shapes. -/
structure WrappedLoaderE where
  loaderRecs : List (List Value)
  data_fields : Finset String
  data_fields_seq : List String

/-- Embedding of `wrap_iterable` (loader.py, lines 149-177). -/
def wrap_iterable (loader : List (List Value)) (data_fields : List String) :
    WrappedLoaderE :=
  ⟨loader, data_fields.toFinset, data_fields⟩

/-- Iterating a wrapped loader (`WrappedUnsizedLoader.__iter__`). -/
def iterLoader (w : WrappedLoaderE) : List Data × Bool :=
  iterWrapped w.data_fields_seq w.loaderRecs

theorem zipStrict_eq_zip (fields : List String) (r : List Value)
    (h : r.length = fields.length) :
    zipStrict fields r = some (fields.zip r) := by
  induction fields generalizing r with
  | nil =>
    cases r with
    | nil => rfl
    | cons v vs => simp at h
  | cons k ks ih =>
    cases r with
    | nil => simp at h
    | cons v vs => simp [zipStrict, ih vs (by simpa using h)]

theorem zipStrict_mismatch (fields : List String) (r : List Value)
    (h : r.length ≠ fields.length) : zipStrict fields r = none := by
  induction fields generalizing r with
  | nil =>
    cases r with
    | nil => simp at h
    | cons v vs => rfl
  | cons k ks ih =>
    cases r with
    | nil => rfl
    | cons v vs => simp [zipStrict, ih vs (by simpa using h)]

theorem iterWrapped_all_ok (fields : List String) (recs : List (List Value))
    (hall : ∀ r ∈ recs, r.length = fields.length) :
    iterWrapped fields recs = (recs.map (fun r => fields.zip r), false) := by
  induction recs with
  | nil => rfl
  | cons b bs ih =>
    have hb := hall b (List.mem_cons_self b bs)
    simp [iterWrapped, zipStrict_eq_zip fields b hb,
      ih (fun r hr => hall r (List.mem_cons_of_mem b hr))]

theorem iterWrapped_first_bad (fields : List String)
    (good : List (List Value)) (bad : List Value) (rest : List (List Value))
    (hgood : ∀ r ∈ good, r.length = fields.length)
    (hbad : bad.length ≠ fields.length) :
    iterWrapped fields (good ++ bad :: rest) =
      (good.map (fun r => fields.zip r), true) := by
  induction good with
  | nil => simp [iterWrapped, zipStrict_mismatch fields bad hbad]
  | cons b bs ih =>
    have hb := hgood b (List.mem_cons_self b bs)
    simp [iterWrapped, zipStrict_eq_zip fields b hb,
      ih (fun r hr => hgood r (List.mem_cons_of_mem b hr))]

/-- C9: iterating a source wrapped by `wrap_iterable` with (distinct) field
names yields, for each source record, the mapping whose keys are the supplied
names in order, positionally zipped with the record's values; the first
record whose length differs from the number of names raises the
shape-mismatch error, lazily, when that record is consumed — records before
it are still yielded — and construction records only the field-name set (the
input to `validate`), inspecting no record. The `Nodup` hypothesis reflects
that a Python dict built over duplicate names would collapse them. -/
theorem wrap_iterable_roundtrip (fields : List String)
    (recs : List (List Value)) (hnd : fields.Nodup) :
    ((∀ r ∈ recs, r.length = fields.length) →
      iterLoader (wrap_iterable recs fields) =
        (recs.map (fun r => fields.zip r), false)) ∧
    (∀ good bad rest, recs = good ++ bad :: rest →
      (∀ r ∈ good, r.length = fields.length) →
      bad.length ≠ fields.length →
      iterLoader (wrap_iterable recs fields) =
        (good.map (fun r => fields.zip r), true)) ∧
    (wrap_iterable recs fields).data_fields = fields.toFinset := by
  refine ⟨?_, ?_, rfl⟩
  · intro hall
    exact iterWrapped_all_ok fields recs hall
  · intro good bad rest hre hgood hbad
    subst hre
    exact iterWrapped_first_bad fields good bad rest hgood hbad

/-- Witness for `wrap_iterable_roundtrip` at a concrete two-field source. -/
theorem wrap_iterable_roundtrip_w :
    iterLoader (wrap_iterable [[Value.int 1, Value.int 2]] ["a", "b"]) =
      ([[("a", Value.int 1), ("b", Value.int 2)]], false) := by
  have h := (wrap_iterable_roundtrip ["a", "b"] [[Value.int 1, Value.int 2]]
    (by decide)).1 (by decide)
  simpa using h

end Middl
